import Mathlib

/-!
Shallow embedding of `minesweeper/minesweeper.py`: the `Minesweeper` board
class, the `Sentence` class and the `MinesweeperAI` agent, together with
theorems settling the specification claims about them.

Modelling conventions:
* a board cell is a pair of integers (Python tuples of ints);
* Python `set` becomes `Finset Cell`; sentence counts are `ℤ` (Python ints,
  and the code can in fact drive a count negative);
* the in-place mutation of the agent is explicit state passing on `AIState`;
* Python's `for sentence in self.knowledge` iterates by index and *does*
  visit elements appended during the loop, so the inference loop of
  `add_knowledge` is modelled as an index-driven loop; since that loop can
  genuinely fail to terminate, it takes fuel and returns `Option AIState`
  (`none` = the call never returns);
* the new sentence `s` of `add_knowledge` is an element of the knowledge
  list and is mutated through it, so it is modelled by its index `si`;
* iterating a Python set and marking each element (`for cell in ...:
  self.mark_safe(cell)`) has an order-independent net effect, so it is
  modelled by the equivalent set-at-a-time update (see `mark_mine_all`).
-/

abbrev Cell : Type := ℤ × ℤ

/-- The `Sentence` class: a set of board cells and a count of how many of
them are mines.  Python `__eq__` compares both fields, which is exactly
structure equality. -/
structure Sentence where
  cells : Finset Cell
  count : ℤ
deriving DecidableEq

instance : Inhabited Sentence := ⟨⟨∅, 0⟩⟩

/-- `Sentence.known_mines`: returns `cells` when `len(cells) == count != 0`,
else the empty set. -/
def known_mines (s : Sentence) : Finset Cell :=
  if (s.cells.card : ℤ) = s.count ∧ s.count ≠ 0 then s.cells else ∅

/-- `Sentence.known_safes`: returns `cells` when `count == 0`, else the
empty set. -/
def known_safes (s : Sentence) : Finset Cell :=
  if s.count = 0 then s.cells else ∅

/-- `Sentence.mark_mine`: if the cell is present, remove it and decrement
the count. -/
def sent_mark_mine (s : Sentence) (c : Cell) : Sentence :=
  if c ∈ s.cells then ⟨s.cells.erase c, s.count - 1⟩ else s

/-- `Sentence.mark_safe`: if the cell is present, remove it, count
unchanged. -/
def sent_mark_safe (s : Sentence) (c : Cell) : Sentence :=
  if c ∈ s.cells then ⟨s.cells.erase c, s.count⟩ else s

/-- The mutable state of a `MinesweeperAI` object, in the field order of
`__init__`. -/
structure AIState where
  height : ℕ
  width : ℕ
  moves_made : Finset Cell
  mines : Finset Cell
  safes : Finset Cell
  knowledge : List Sentence
deriving DecidableEq

instance : Inhabited AIState := ⟨⟨0, 0, ∅, ∅, ∅, []⟩⟩

/-- `MinesweeperAI.__init__(height, width)`. -/
def initialAI (h w : ℕ) : AIState := ⟨h, w, ∅, ∅, ∅, []⟩

/-- `MinesweeperAI.mark_mine`: add the cell to `mines` and propagate
`Sentence.mark_mine` to every sentence. -/
def mark_mine (st : AIState) (c : Cell) : AIState :=
  { st with mines := insert c st.mines,
            knowledge := st.knowledge.map (fun t => sent_mark_mine t c) }

/-- `MinesweeperAI.mark_safe`: add the cell to `safes` and propagate
`Sentence.mark_safe` to every sentence. -/
def mark_safe (st : AIState) (c : Cell) : AIState :=
  { st with safes := insert c st.safes,
            knowledge := st.knowledge.map (fun t => sent_mark_safe t c) }

/-- `for cell in cs: self.mark_mine(cell)` over a Python set `cs`.  Each
element of the set is marked once, and marking is order-independent: every
`mark_mine c` adds `c` to `mines` and, in each sentence containing `c`,
removes `c` and decrements the count once.  The net effect, written
set-at-a-time: `mines` gains `cs`, and each sentence loses `cells ∩ cs`
with its count decremented by the number of removed cells. -/
def mark_mine_all (st : AIState) (cs : Finset Cell) : AIState :=
  { st with mines := st.mines ∪ cs,
            knowledge := st.knowledge.map
              (fun t => ⟨t.cells \ cs, t.count - ((t.cells ∩ cs).card : ℤ)⟩) }

/-- `for cell in cs: self.mark_safe(cell)` over a Python set `cs`: `safes`
gains `cs` and each sentence loses `cells ∩ cs`, counts unchanged
(same order-independence argument as `mark_mine_all`). -/
def mark_safe_all (st : AIState) (cs : Finset Cell) : AIState :=
  { st with safes := st.safes ∪ cs,
            knowledge := st.knowledge.map (fun t => ⟨t.cells \ cs, t.count⟩) }

/-- Lines 205-206 of `add_knowledge`: `for k in (cell[0]-1, cell[0]+2)`
iterates over the *two-element tuple* `(cell[0]-1, cell[0]+2)` (and likewise
for `m`), so only four corner offsets are ever sampled. -/
def corner_samples (cell : Cell) : List Cell :=
  [cell.1 - 1, cell.1 + 2].bind fun k =>
    [cell.2 - 1, cell.2 + 2].map fun m => (k, m)

/-- Lines 203-212: the `neighbors` set built by `add_knowledge` — the
sampled offsets that are in bounds, not already safe, not already mines and
not the cell itself. -/
def neighbors (st : AIState) (cell : Cell) : Finset Cell :=
  ((corner_samples cell).filter (fun p =>
      decide (0 ≤ p.1 ∧ p.1 < (st.height : ℤ) ∧ 0 ≤ p.2 ∧ p.2 < (st.width : ℤ) ∧
        p ∉ st.safes ∧ p ∉ st.mines ∧ p ≠ cell))).toFinset

/-- Line 214: `neighbors_count = count - len(neighbors.intersection(self.mines))`. -/
def adjusted_count (st : AIState) (cell : Cell) (count : ℤ) : ℤ :=
  count - ((neighbors st cell ∩ st.mines).card : ℤ)

/-- Lines 215-220 of `add_knowledge`: if the adjusted count is zero mark
every neighbor safe, and if it equals the neighbor count mark every
neighbor a mine (both tests use the original local `neighbors` set and
count). -/
def ak_after_marks (st1 : AIState) (n : Finset Cell) (ncount : ℤ) : AIState :=
  if ncount = (n.card : ℤ) then
    mark_mine_all (if ncount = 0 then mark_safe_all st1 n else st1) n
  else
    (if ncount = 0 then mark_safe_all st1 n else st1)

/-- Appending `Sentence(n, c)` to `self.knowledge`. -/
def ak_append (st : AIState) (n : Finset Cell) (c : ℤ) : AIState :=
  { st with knowledge := st.knowledge ++ [⟨n, c⟩] }

/-- Lines 225-227 of the inference loop: if `sentence.known_mines()` is
non-empty (truthy), mark every cell of a copy of it as a mine.  The index
`i` is the loop position. -/
def step_mines (st : AIState) (i : ℕ) : AIState :=
  if ((st.knowledge.getD i ⟨∅, 0⟩).cells.card : ℤ) = (st.knowledge.getD i ⟨∅, 0⟩).count ∧
      (st.knowledge.getD i ⟨∅, 0⟩).count ≠ 0 then
    mark_mine_all st (st.knowledge.getD i ⟨∅, 0⟩).cells
  else st

/-- Lines 228-230: if `sentence.known_safes()` is non-empty (truthy —
which needs `count == 0` and a non-empty cell set, the sentence being
re-read after the mine marking), mark every cell of it safe. -/
def step_safes (st : AIState) (i : ℕ) : AIState :=
  if (st.knowledge.getD i ⟨∅, 0⟩).count = 0 ∧ (st.knowledge.getD i ⟨∅, 0⟩).cells ≠ ∅ then
    mark_safe_all st (st.knowledge.getD i ⟨∅, 0⟩).cells
  else st

/-- Lines 231-242: skip when `sentence == s` (value equality); otherwise,
with `a = sentence.cells - s.cells`, `b = s.cells ∩ sentence.cells` and
`c = sentence.count - s.count`, when `s.cells ⊆ sentence.cells` and
`c > 0`: if `s.count or sentence.count == 0 and b is not None` (Python
precedence: `s.count != 0 ∨ sentence.count == 0`, the `b is not None`
conjunct being always true) mark every cell of `b` safe, else append
`Sentence(a, c)`.  `s` is the sentence object appended by this call, read
through its list index `si`. -/
def step_resolve (st : AIState) (si i : ℕ) : AIState :=
  if st.knowledge.getD i ⟨∅, 0⟩ = st.knowledge.getD si ⟨∅, 0⟩ then st
  else if (st.knowledge.getD si ⟨∅, 0⟩).cells ⊆ (st.knowledge.getD i ⟨∅, 0⟩).cells then
    if 0 < (st.knowledge.getD i ⟨∅, 0⟩).count - (st.knowledge.getD si ⟨∅, 0⟩).count then
      if (st.knowledge.getD si ⟨∅, 0⟩).count ≠ 0 ∨ (st.knowledge.getD i ⟨∅, 0⟩).count = 0 then
        mark_safe_all st ((st.knowledge.getD si ⟨∅, 0⟩).cells ∩ (st.knowledge.getD i ⟨∅, 0⟩).cells)
      else
        ak_append st ((st.knowledge.getD i ⟨∅, 0⟩).cells \ (st.knowledge.getD si ⟨∅, 0⟩).cells)
          ((st.knowledge.getD i ⟨∅, 0⟩).count - (st.knowledge.getD si ⟨∅, 0⟩).count)
    else st
  else st

/-- One iteration of `for sentence in self.knowledge` (lines 224-242). -/
def loop_body (st : AIState) (si i : ℕ) : AIState :=
  step_resolve (step_safes (step_mines st i) i) si i

/-- The `for sentence in self.knowledge` loop.  Python's list iterator
fetches index `i` of the *current* list, so elements appended during the
loop are visited; since the body can append a fresh equal sentence forever,
the loop can diverge, hence the fuel. -/
def inference_loop (fuel : ℕ) (st : AIState) (si i : ℕ) : Option AIState :=
  match fuel with
  | 0 => none
  | f + 1 =>
    if i < st.knowledge.length then inference_loop f (loop_body st si i) si (i + 1)
    else some st

/-- `MinesweeperAI.add_knowledge(cell, count)` (lines 184-242). -/
def add_knowledge (fuel : ℕ) (st : AIState) (cell : Cell) (count : ℤ) : Option AIState :=
  let st1 := mark_safe { st with moves_made := insert cell st.moves_made } cell
  let n := neighbors st1 cell
  let ncount := adjusted_count st1 cell count
  let st3 := ak_after_marks st1 n ncount
  inference_loop fuel (ak_append st3 n ncount) st3.knowledge.length 0

/-- `MinesweeperAI.make_random_move` (lines 266-282): the deterministic
candidate list.  `range(0, self.height-1)` and `range(0, self.width-1)`
omit the last row and column, and `cell not in (self.moves_made and
self.mines)` tests membership in `self.mines` when `moves_made` is
non-empty (Python `and` on sets), in `moves_made` (= the empty set)
otherwise.  The function returns `None` iff this list is empty and
otherwise `random.choice` of it. -/
def possible_moves (st : AIState) : List Cell :=
  ((List.range (st.height - 1)).bind fun f =>
      (List.range (st.width - 1)).map fun g => ((f : ℤ), (g : ℤ))).filter
    (fun cell => decide (cell ∉ (if st.moves_made = ∅ then st.moves_made else st.mines)))

/-- Written from the spec, for comparison with `possible_moves`: all
`height*width` board cells that are in neither `moves_made` nor `mines`
(membership tested against the union of the two sets). -/
def spec_random_move_candidates (st : AIState) : Finset Cell :=
  ((Finset.range st.height ×ˢ Finset.range st.width).image
      fun p => ((p.1 : ℤ), (p.2 : ℤ))).filter
    fun c => c ∉ st.moves_made ∪ st.mines

/-- Written from the spec, for comparison with `neighbors`: the in-bounds
cells of the full 3×3 block centered on `cell` (row and column distance at
most 1), excluding `cell` itself. -/
def spec_neighborhood (h w : ℕ) (cell : Cell) : Finset Cell :=
  ((Finset.Icc (cell.1 - 1) (cell.1 + 1)) ×ˢ (Finset.Icc (cell.2 - 1) (cell.2 + 1))).filter
    fun p => p ≠ cell ∧ 0 ≤ p.1 ∧ p.1 < (h : ℤ) ∧ 0 ≤ p.2 ∧ p.2 < (w : ℤ)

/-- The `Minesweeper` board class: dimensions and the `self.board` list of
lists of booleans. -/
structure Minefield where
  height : ℕ
  width : ℕ
  board : List (List Bool)

/-- Python list indexing `l[i]`: in-range non-negative indices select
directly, negative indices `-len l ≤ i < 0` select from the end
(`l[len l + i]`), anything else raises `IndexError` (modelled as `none`). -/
def pyGet {α : Type} (l : List α) (i : ℤ) : Option α :=
  if 0 ≤ i ∧ i < (l.length : ℤ) then l.get? i.toNat
  else if -(l.length : ℤ) ≤ i ∧ i < 0 then l.get? (i + l.length).toNat
  else none

/-- `Minesweeper.is_mine(cell)`: `self.board[i][j]`, with Python indexing
semantics; `none` means the call raises. -/
def is_mine (fld : Minefield) (cell : Cell) : Option Bool :=
  (pyGet fld.board cell.1).bind fun row => pyGet row cell.2

/-- `Minesweeper.nearby_mines(cell)` (lines 55-78): count the mines among
the 3×3 block around the cell, skipping the cell itself and anything out
of bounds; the board is only read on in-bounds indices (the agent
constructs boards of exactly `height × width`, so the `getD` defaults are
never hit there). -/
def nearby_mines (fld : Minefield) (cell : Cell) : ℕ :=
  (([cell.1 - 1, cell.1, cell.1 + 1].bind fun k =>
      [cell.2 - 1, cell.2, cell.2 + 1].map fun m => ((k, m) : Cell)).filter
    fun p => decide (p ≠ cell ∧ 0 ≤ p.1 ∧ p.1 < (fld.height : ℤ) ∧ 0 ≤ p.2 ∧
      p.2 < (fld.width : ℤ) ∧ (fld.board.getD p.1.toNat []).getD p.2.toNat false = true)).length

/-! Concrete states used by the claim theorems. -/

/-- A fresh 4×4 agent after `add_knowledge((1,1), 1)`. -/
def c5a : AIState := (add_knowledge 6 (initialAI 4 4) ((1:ℤ),(1:ℤ)) 1).getD default

/-- The agent `c5a` after `mark_mine((0,0))` and `mark_mine((0,3))`. -/
def c5c : AIState := mark_mine (mark_mine c5a ((0:ℤ),(0:ℤ))) ((0:ℤ),(3:ℤ))

/-- A knowledge base holding sentence A = ⟨{(0,1),(0,2),(0,3)}, 1⟩ and
sentence B = ⟨{(0,1),(0,2)}, 1⟩ with B.cells ⊊ A.cells, on a 4×4 board. -/
def c2state : AIState :=
  ⟨4, 4, ∅, ∅, ∅,
    [⟨{((0:ℤ),(1:ℤ)), ((0:ℤ),(2:ℤ)), ((0:ℤ),(3:ℤ))}, 1⟩,
     ⟨{((0:ℤ),(1:ℤ)), ((0:ℤ),(2:ℤ))}, 1⟩]⟩

/-- The agent state at line 214 of a call `add_knowledge((0,0), count)` on a
fresh 4×4 agent that was told `mark_mine((1,1))` beforehand: the cell has
been recorded and marked safe, and `(1,1)` is a confirmed mine adjacent to
`(0,0)`. -/
def c4st : AIState := mark_safe (mark_mine (initialAI 4 4) ((1:ℤ),(1:ℤ))) ((0:ℤ),(0:ℤ))

/-- A 2×2 agent that has played `(0,0)` and knows no mines. -/
def c7state : AIState := ⟨2, 2, {((0:ℤ),(0:ℤ))}, ∅, ∅, []⟩

/-- A fresh agent that was told `mark_safe((0,0))` and then
`mark_mine((0,0))`. -/
def c6state : AIState := mark_mine (mark_safe (initialAI 4 4) ((0:ℤ),(0:ℤ))) ((0:ℤ),(0:ℤ))

/-- A 2×2 minefield whose only mine is at `(1,0)`. -/
def fld2 : Minefield := ⟨2, 2, [[false, false], [true, false]]⟩

/-! The claim theorems. -/

/-- C1: refuted as stated.  On a fresh 4×4 agent (no mines adjacent to
`(0,0)`), `add_knowledge((0,0), 0)` terminates but marks safe only `(0,0)`
itself and the corner-sampled `(2,2)` — not the in-bounds 3×3 neighbors
`(0,1)`, `(1,0)`, `(1,1)` required by the claim (shown alongside as
`spec_neighborhood`): lines 205-206 iterate the two-element tuples
`(cell[0]-1, cell[0]+2)`, not the 3×3 block. -/
theorem C1_eval :
    add_knowledge 6 (initialAI 4 4) ((0:ℤ),(0:ℤ)) 0 ≠ none ∧
    ((add_knowledge 6 (initialAI 4 4) ((0:ℤ),(0:ℤ)) 0).getD default).safes =
      {((0:ℤ),(0:ℤ)), ((2:ℤ),(2:ℤ))} ∧
    ((0:ℤ),(1:ℤ)) ∉ ((add_knowledge 6 (initialAI 4 4) ((0:ℤ),(0:ℤ)) 0).getD default).safes ∧
    spec_neighborhood 4 4 ((0:ℤ),(0:ℤ)) = {((0:ℤ),(1:ℤ)), ((1:ℤ),(0:ℤ)), ((1:ℤ),(1:ℤ))} := by
  refine ⟨by decide, by decide, by decide, by decide⟩

/-- C2: refuted as stated.  With sentences A = ⟨{(0,1),(0,2),(0,3)}, 1⟩ and
B = ⟨{(0,1),(0,2)}, 1⟩ in the knowledge base (`c2state`), the call
`add_knowledge((3,3), 0)` terminates without marking `(0,3)` safe: the
loop only resolves each sentence against the newly appended sentence `s`
(lines 231-242), never pairs A with B, so the derived ⟨{(0,3)}, 0⟩ is
never produced. -/
theorem C2_eval :
    add_knowledge 8 c2state ((3:ℤ),(3:ℤ)) 0 ≠ none ∧
    ((0:ℤ),(3:ℤ)) ∉ ((add_knowledge 8 c2state ((3:ℤ),(3:ℤ)) 0).getD default).safes ∧
    ((add_knowledge 8 c2state ((3:ℤ),(3:ℤ)) 0).getD default).knowledge.getD 0 ⟨∅, 0⟩ =
      ⟨{((0:ℤ),(1:ℤ)), ((0:ℤ),(2:ℤ)), ((0:ℤ),(3:ℤ))}, 1⟩ := by
  refine ⟨by decide, by decide, by decide⟩

/-- C3: refuted as stated.  On a fresh 2×2 agent, `add_knowledge((0,0), 0)`
builds the sentence ⟨∅, 0⟩ (all corner samples are out of bounds) and
returns with that empty-cell sentence still in the knowledge base: the
loop never drops sentences whose cell set becomes empty, contrary to the
claimed direct-inference fixpoint. -/
theorem C3_eval :
    add_knowledge 6 (initialAI 2 2) ((0:ℤ),(0:ℤ)) 0 ≠ none ∧
    ((add_knowledge 6 (initialAI 2 2) ((0:ℤ),(0:ℤ)) 0).getD default).knowledge = [⟨∅, 0⟩] ∧
    ((add_knowledge 6 (initialAI 2 2) ((0:ℤ),(0:ℤ)) 0).getD default).knowledge ≠ [] := by
  refine ⟨by decide, by decide, by decide⟩

/-- C4: refuted as stated.  In state `c4st` the confirmed mine `(1,1)` lies
in the full 3×3 neighborhood of `(0,0)`, yet the count stored for the new
sentence of `add_knowledge((0,0), 1)` is `adjusted_count = 1`, not less
than the supplied count: line 214 intersects `self.mines` with the already
mine-filtered `neighbors` set (always empty), and that set samples only
corner offsets anyway. -/
theorem C4_eval :
    adjusted_count c4st ((0:ℤ),(0:ℤ)) 1 = 1 ∧
    ((1:ℤ),(1:ℤ)) ∈ spec_neighborhood 4 4 ((0:ℤ),(0:ℤ)) ∧
    ((1:ℤ),(1:ℤ)) ∈ c4st.mines ∧
    neighbors c4st ((0:ℤ),(0:ℤ)) ∩ c4st.mines = ∅ ∧
    ¬ adjusted_count c4st ((0:ℤ),(0:ℤ)) 1 < 1 := by
  refine ⟨by decide, by decide, by decide, by decide, by decide⟩

/-- C5: refuted as stated.  After the call sequence `add_knowledge((1,1),1)`;
`mark_mine((0,0))`; `mark_mine((0,3))`; `add_knowledge((1,2),1)` on a fresh
4×4 agent, the last `add_knowledge` returns with the sentence
⟨{(3,0),(3,3)}, -1⟩ in the knowledge base — its count is negative, because
`Sentence.mark_mine` decremented the count of a sentence that had already
reached count 0. -/
theorem C5_eval :
    add_knowledge 6 (initialAI 4 4) ((1:ℤ),(1:ℤ)) 1 ≠ none ∧
    add_knowledge 6 c5c ((1:ℤ),(2:ℤ)) 1 ≠ none ∧
    (((add_knowledge 6 c5c ((1:ℤ),(2:ℤ)) 1).getD default).knowledge.getD 0 ⟨∅, 0⟩).count = -1 ∧
    (((add_knowledge 6 c5c ((1:ℤ),(2:ℤ)) 1).getD default).knowledge.getD 0 ⟨∅, 0⟩).cells =
      {((3:ℤ),(0:ℤ)), ((3:ℤ),(3:ℤ))} := by
  refine ⟨by decide, by decide, by decide, by decide⟩

/-- C7: refuted as stated.  On the 2×2 agent `c7state` with `moves_made =
{(0,0)}` and no known mines, the candidate list of `make_random_move` is
exactly `[(0,0)]` — a cell already played — because the loops stop at
`height-1`/`width-1` and the membership test `cell not in (self.moves_made
and self.mines)` tests only `self.mines`; the spec-side candidate set (all
board cells outside `moves_made ∪ mines`) is the three unplayed cells and
excludes `(0,0)`, so whatever `random.choice` picks violates the claim. -/
theorem C7_eval :
    possible_moves c7state = [((0:ℤ),(0:ℤ))] ∧
    ((0:ℤ),(0:ℤ)) ∈ c7state.moves_made ∧
    spec_random_move_candidates c7state =
      {((0:ℤ),(1:ℤ)), ((1:ℤ),(0:ℤ)), ((1:ℤ),(1:ℤ))} ∧
    ((0:ℤ),(0:ℤ)) ∉ spec_random_move_candidates c7state := by
  refine ⟨by decide, by decide, by decide, by decide⟩

/-- C6 counterexample: after `mark_safe((0,0))` followed by
`mark_mine((0,0))` on a fresh agent, `(0,0)` is in both `safes` and
`mines`, so the sets are not disjoint: neither marking method consults the
other set. -/
theorem C6_cex :
    ((0:ℤ),(0:ℤ)) ∈ c6state.safes ∧ ((0:ℤ),(0:ℤ)) ∈ c6state.mines ∧
    c6state.safes ∩ c6state.mines ≠ ∅ := by
  refine ⟨by decide, by decide, by decide⟩

/-- C9 counterexample: `is_mine` on the out-of-bounds cell `(-1,0)` of the
2×2 board `fld2` does not fail — Python indexing silently reinterprets the
negative index and returns the mine bit of row 1, the same answer as the
in-bounds query `(1,0)`; and `nearby_mines((-5,-5))` silently returns 0
instead of failing. -/
theorem C9_cex :
    is_mine fld2 ((-1:ℤ), (0:ℤ)) = some true ∧
    is_mine fld2 ((1:ℤ), (0:ℤ)) = some true ∧
    nearby_mines fld2 ((-5:ℤ), (-5:ℤ)) = 0 := by
  refine ⟨by decide, by decide, by decide⟩

/-- C8: confirmed.  `known_mines` returns exactly the cell set when
`|cells| = count` and `count > 0` and the empty set otherwise (the code
tests `count != 0`, equivalent since `|cells| = count` forces `count ≥ 0`),
and `known_safes` returns exactly the cell set when `count = 0` and the
empty set otherwise. -/
theorem C8_thm (s : Sentence) :
    known_mines s = (if (s.cells.card : ℤ) = s.count ∧ 0 < s.count then s.cells else ∅) ∧
    known_safes s = (if s.count = 0 then s.cells else ∅) := by
  refine ⟨?_, rfl⟩
  unfold known_mines
  by_cases h1 : (s.cells.card : ℤ) = s.count ∧ s.count ≠ 0
  · rw [if_pos h1, if_pos ⟨h1.1, by omega⟩]
  · rw [if_neg h1, if_neg (fun hc => h1 ⟨hc.1, by omega⟩)]

/-- A concrete sentence, `Sentence({(0,0)}, 1)`. -/
def c8sent : Sentence := ⟨{((0:ℤ),(0:ℤ))}, 1⟩

/-- C8 witness: `C8_thm` applied to the concrete sentence ⟨{(0,0)}, 1⟩. -/
theorem C8_witness :
    known_mines c8sent =
      (if (c8sent.cells.card : ℤ) = c8sent.count ∧ 0 < c8sent.count then c8sent.cells else ∅) ∧
    known_safes c8sent = (if c8sent.count = 0 then c8sent.cells else ∅) :=
  C8_thm c8sent

/-- C6 (amended): the sets start disjoint at construction, and each marking
operation preserves disjointness exactly when its argument is not already
in the opposite set — `mark_mine` adds to `mines` and `mark_safe` adds to
`safes` unconditionally, with no check of the other set, so contradictory
marks (see `C6_cex`) make the sets overlap. -/
theorem C6_thm :
    (∀ h w : ℕ, (initialAI h w).safes ∩ (initialAI h w).mines = ∅) ∧
    (∀ (st : AIState) (c : Cell), st.safes ∩ st.mines = ∅ → c ∉ st.safes →
      (mark_mine st c).safes ∩ (mark_mine st c).mines = ∅) ∧
    (∀ (st : AIState) (c : Cell), st.safes ∩ st.mines = ∅ → c ∉ st.mines →
      (mark_safe st c).safes ∩ (mark_safe st c).mines = ∅) := by
  refine ⟨fun h w => rfl, ?_, ?_⟩
  · intro st c hdisj hc
    apply Finset.eq_empty_iff_forall_not_mem.mpr
    intro x hx
    rw [mark_mine] at hx
    simp only [Finset.mem_inter, Finset.mem_insert] at hx
    rcases hx with ⟨hxs, hxc | hxm⟩
    · exact hc (hxc ▸ hxs)
    · exact Finset.eq_empty_iff_forall_not_mem.mp hdisj x (Finset.mem_inter.mpr ⟨hxs, hxm⟩)
  · intro st c hdisj hc
    apply Finset.eq_empty_iff_forall_not_mem.mpr
    intro x hx
    rw [mark_safe] at hx
    simp only [Finset.mem_inter, Finset.mem_insert] at hx
    rcases hx with ⟨hxc | hxs, hxm⟩
    · exact hc (hxc ▸ hxm)
    · exact Finset.eq_empty_iff_forall_not_mem.mp hdisj x (Finset.mem_inter.mpr ⟨hxs, hxm⟩)

/-- A fresh 2×2 agent after `mark_safe((0,0))`. -/
def c6w0 : AIState := mark_safe (initialAI 2 2) ((0:ℤ),(0:ℤ))

/-- C6 witness: `C6_thm` applied at construction and to `mark_mine((0,1))`
on the concrete state `c6w0`, whose hypotheses hold there. -/
theorem C6_witness :
    (initialAI 2 2).safes ∩ (initialAI 2 2).mines = ∅ ∧
    (mark_mine c6w0 ((0:ℤ),(1:ℤ))).safes ∩ (mark_mine c6w0 ((0:ℤ),(1:ℤ))).mines = ∅ :=
  ⟨C6_thm.1 2 2, C6_thm.2.1 c6w0 ((0:ℤ),(1:ℤ)) (by decide) (by decide)⟩

/-- `pyGet` fails exactly on indices below `-len` or at/above `len`. -/
theorem pyGet_eq_none_iff {α : Type} (l : List α) (i : ℤ) :
    pyGet l i = none ↔ (i < -(l.length : ℤ) ∨ (l.length : ℤ) ≤ i) := by
  unfold pyGet
  split_ifs with h1 h2
  · refine iff_of_false ?_ (by omega)
    rw [List.get?_eq_get (show i.toNat < l.length by omega)]
    simp
  · refine iff_of_false ?_ (by omega)
    rw [List.get?_eq_get (show (i + l.length).toNat < l.length by omega)]
    simp
  · exact iff_of_true rfl (by omega)

/-- A successful `pyGet` returns an element of the list. -/
theorem pyGet_mem {α : Type} {l : List α} {i : ℤ} {a : α} (h : pyGet l i = some a) :
    a ∈ l := by
  unfold pyGet at h
  split_ifs at h
  · exact List.get?_mem h
  · exact List.get?_mem h

/-- `pyGet` silently wraps a negative in-range index to `i + len`. -/
theorem pyGet_neg_wrap {α : Type} (l : List α) (i : ℤ) (h1 : -(l.length : ℤ) ≤ i)
    (h2 : i < 0) : pyGet l i = pyGet l (i + l.length) := by
  unfold pyGet
  rw [if_neg (by omega), if_pos (show -(l.length : ℤ) ≤ i ∧ i < 0 by omega),
    if_pos (show 0 ≤ i + (l.length : ℤ) ∧ i + (l.length : ℤ) < l.length by omega)]

/-- C9 (amended): on a well-formed `height × width` board, `is_mine` raises
(`none`, Python's `IndexError` — there is no dedicated `InvalidCellError`)
exactly for coordinates outside `[-H, H) × [-W, W)`, and silently
reinterprets a negative in-range row `i` as row `i + H` (wrap-around) —
nothing is reported for such out-of-bounds cells; `nearby_mines` (a total
function, see `C9_cex` for its silent `0` on far-out cells) never raises. -/
theorem C9_thm (fld : Minefield) (i j : ℤ)
    (hb : fld.board.length = fld.height)
    (hr : ∀ row ∈ fld.board, row.length = fld.width) :
    (is_mine fld (i, j) = none ↔
      (i < -(fld.height : ℤ) ∨ (fld.height : ℤ) ≤ i ∨
        j < -(fld.width : ℤ) ∨ (fld.width : ℤ) ≤ j)) ∧
    (-(fld.height : ℤ) ≤ i → i < 0 →
      is_mine fld (i, j) = is_mine fld (i + fld.height, j)) := by
  constructor
  · show (pyGet fld.board i).bind (fun row => pyGet row j) = none ↔ _
    cases h : pyGet fld.board i with
    | none =>
      have hn := (pyGet_eq_none_iff fld.board i).mp h
      rw [hb] at hn
      exact iff_of_true rfl (by omega)
    | some row =>
      have hrow : row.length = fld.width := hr row (pyGet_mem h)
      have hin : ¬ (i < -(fld.board.length : ℤ) ∨ (fld.board.length : ℤ) ≤ i) := by
        intro hcon
        rw [(pyGet_eq_none_iff fld.board i).mpr hcon] at h
        exact Option.noConfusion h
      rw [hb] at hin
      simp only [Option.some_bind]
      rw [pyGet_eq_none_iff row j, hrow]
      constructor
      · intro hj; omega
      · intro hj; omega
  · intro h1 h2
    show (pyGet fld.board i).bind (fun row => pyGet row j) =
      (pyGet fld.board (i + fld.height)).bind (fun row => pyGet row j)
    have w := pyGet_neg_wrap fld.board i (by rw [hb]; exact h1) h2
    rw [hb] at w
    rw [w]

/-- C9 witness: `C9_thm` applied to the concrete 2×2 board `fld2` at the
out-of-bounds cell `(-1, 0)`. -/
theorem C9_witness :
    (is_mine fld2 ((-1 : ℤ), (0 : ℤ)) = none ↔
      ((-1 : ℤ) < -(fld2.height : ℤ) ∨ (fld2.height : ℤ) ≤ (-1 : ℤ) ∨
        (0 : ℤ) < -(fld2.width : ℤ) ∨ (fld2.width : ℤ) ≤ (0 : ℤ))) ∧
    (-(fld2.height : ℤ) ≤ (-1 : ℤ) → (-1 : ℤ) < 0 →
      is_mine fld2 ((-1 : ℤ), (0 : ℤ)) = is_mine fld2 ((-1 : ℤ) + fld2.height, (0 : ℤ))) :=
  C9_thm fld2 (-1) 0 (by decide) (by decide)

/-- The knowledge collection of `st'` extends that of `st`: it is at least
as long, and the sentence at each old position still sits at that position
with a (possibly shrunken, by in-place marking) cell set.  In particular no
sentence is ever removed, and a sentence whose cell set is empty stays. -/
def KShrinks (st st' : AIState) : Prop :=
  st.knowledge.length ≤ st'.knowledge.length ∧
  ∀ i : ℕ, i < st.knowledge.length →
    (st'.knowledge.getD i ⟨∅, 0⟩).cells ⊆ (st.knowledge.getD i ⟨∅, 0⟩).cells

theorem kshrinks_refl (st : AIState) : KShrinks st st :=
  ⟨le_refl _, fun _ _ => Finset.Subset.refl _⟩

theorem kshrinks_trans {a b c : AIState} (h1 : KShrinks a b) (h2 : KShrinks b c) :
    KShrinks a c :=
  ⟨le_trans h1.1 h2.1, fun i hi =>
    Finset.Subset.trans (h2.2 i (lt_of_lt_of_le hi h1.1)) (h1.2 i hi)⟩

/-- Mapping a cell-shrinking function over the knowledge list is a
`KShrinks` step. -/
theorem kshrinks_of_map {st : AIState} {st' : AIState} (f : Sentence → Sentence)
    (hk : st'.knowledge = st.knowledge.map f) (hf : ∀ t, (f t).cells ⊆ t.cells) :
    KShrinks st st' := by
  refine ⟨by rw [hk]; simp, fun i hi => ?_⟩
  rw [hk, List.getD_eq_get?, List.getD_eq_get?, List.get?_map,
    List.get?_eq_get hi]
  exact hf _

theorem sent_mark_mine_cells_subset (t : Sentence) (c : Cell) :
    (sent_mark_mine t c).cells ⊆ t.cells := by
  unfold sent_mark_mine
  split_ifs
  · exact Finset.erase_subset _ _
  · exact Finset.Subset.refl _

theorem sent_mark_safe_cells_subset (t : Sentence) (c : Cell) :
    (sent_mark_safe t c).cells ⊆ t.cells := by
  unfold sent_mark_safe
  split_ifs
  · exact Finset.erase_subset _ _
  · exact Finset.Subset.refl _

theorem mark_mine_kshrinks (st : AIState) (c : Cell) : KShrinks st (mark_mine st c) :=
  kshrinks_of_map _ rfl (fun t => sent_mark_mine_cells_subset t c)

theorem mark_safe_kshrinks (st : AIState) (c : Cell) : KShrinks st (mark_safe st c) :=
  kshrinks_of_map _ rfl (fun t => sent_mark_safe_cells_subset t c)

theorem mark_mine_all_kshrinks (st : AIState) (cs : Finset Cell) :
    KShrinks st (mark_mine_all st cs) :=
  kshrinks_of_map _ rfl (fun t => Finset.sdiff_subset)

theorem mark_safe_all_kshrinks (st : AIState) (cs : Finset Cell) :
    KShrinks st (mark_safe_all st cs) :=
  kshrinks_of_map _ rfl (fun t => Finset.sdiff_subset)

theorem ak_append_kshrinks (st : AIState) (n : Finset Cell) (c : ℤ) :
    KShrinks st (ak_append st n c) := by
  refine ⟨by simp [ak_append], fun i hi => ?_⟩
  have he : (ak_append st n c).knowledge.getD i ⟨∅, 0⟩ = st.knowledge.getD i ⟨∅, 0⟩ := by
    simp only [ak_append]
    rw [List.getD_eq_get?, List.getD_eq_get?, List.get?_append hi]
  rw [he]

theorem step_mines_kshrinks (st : AIState) (i : ℕ) : KShrinks st (step_mines st i) := by
  unfold step_mines
  split_ifs
  · exact mark_mine_all_kshrinks _ _
  · exact kshrinks_refl _

theorem step_safes_kshrinks (st : AIState) (i : ℕ) : KShrinks st (step_safes st i) := by
  unfold step_safes
  split_ifs
  · exact mark_safe_all_kshrinks _ _
  · exact kshrinks_refl _

theorem step_resolve_kshrinks (st : AIState) (si i : ℕ) :
    KShrinks st (step_resolve st si i) := by
  unfold step_resolve
  split_ifs
  · exact kshrinks_refl _
  · exact mark_safe_all_kshrinks _ _
  · exact ak_append_kshrinks _ _ _
  · exact kshrinks_refl _
  · exact kshrinks_refl _

theorem loop_body_kshrinks (st : AIState) (si i : ℕ) : KShrinks st (loop_body st si i) :=
  kshrinks_trans (step_mines_kshrinks st i)
    (kshrinks_trans (step_safes_kshrinks _ i) (step_resolve_kshrinks _ si i))

/-- A terminating run of the `for sentence in self.knowledge` loop only
extends/shrinks-in-place the knowledge list. -/
theorem inference_loop_kshrinks :
    ∀ (fuel : ℕ) (st : AIState) (si i : ℕ) (st' : AIState),
      inference_loop fuel st si i = some st' → KShrinks st st' := by
  intro fuel
  induction fuel with
  | zero =>
    intro st si i st' h
    exact Option.noConfusion h
  | succ f ih =>
    intro st si i st' h
    rw [inference_loop] at h
    split_ifs at h
    · exact kshrinks_trans (loop_body_kshrinks st si i) (ih _ _ _ _ h)
    · cases h
      exact kshrinks_refl _

theorem mark_safe_length (st : AIState) (c : Cell) :
    (mark_safe st c).knowledge.length = st.knowledge.length := by
  simp [mark_safe]

theorem mark_mine_all_length (st : AIState) (cs : Finset Cell) :
    (mark_mine_all st cs).knowledge.length = st.knowledge.length := by
  simp [mark_mine_all]

theorem mark_safe_all_length (st : AIState) (cs : Finset Cell) :
    (mark_safe_all st cs).knowledge.length = st.knowledge.length := by
  simp [mark_safe_all]

theorem ak_after_marks_length (st1 : AIState) (n : Finset Cell) (ncount : ℤ) :
    (ak_after_marks st1 n ncount).knowledge.length = st1.knowledge.length := by
  unfold ak_after_marks
  split_ifs <;>
    simp [mark_mine_all_length, mark_safe_all_length]

theorem ak_append_length (st : AIState) (n : Finset Cell) (c : ℤ) :
    (ak_append st n c).knowledge.length = st.knowledge.length + 1 := by
  simp [ak_append]

theorem ak_after_marks_kshrinks (st1 : AIState) (n : Finset Cell) (ncount : ℤ) :
    KShrinks st1 (ak_after_marks st1 n ncount) := by
  unfold ak_after_marks
  split_ifs
  · exact kshrinks_trans (mark_safe_all_kshrinks _ _) (mark_mine_all_kshrinks _ _)
  · exact mark_mine_all_kshrinks _ _
  · exact mark_safe_all_kshrinks _ _
  · exact kshrinks_refl _

/-- C10: confirmed.  `mark_mine` and `mark_safe` keep the knowledge list's
length and only shrink each sentence in place, and whenever `add_knowledge`
returns, the knowledge list is strictly longer (the new sentence was
appended) and every previously present sentence is still at its position
with a subset of its old cells — sentences, even ones whose cell set has
become empty, are never removed. -/
theorem C10_thm :
    (∀ (st : AIState) (c : Cell),
      (mark_mine st c).knowledge.length = st.knowledge.length ∧ KShrinks st (mark_mine st c)) ∧
    (∀ (st : AIState) (c : Cell),
      (mark_safe st c).knowledge.length = st.knowledge.length ∧ KShrinks st (mark_safe st c)) ∧
    (∀ (fuel : ℕ) (st : AIState) (cell : Cell) (count : ℤ) (st' : AIState),
      add_knowledge fuel st cell count = some st' →
      st.knowledge.length < st'.knowledge.length ∧ KShrinks st st') := by
  refine ⟨fun st c => ⟨by simp [mark_mine], mark_mine_kshrinks st c⟩,
    fun st c => ⟨by simp [mark_safe], mark_safe_kshrinks st c⟩, ?_⟩
  intro fuel st cell count st' h
  simp only [add_knowledge] at h
  have hloop := inference_loop_kshrinks _ _ _ _ _ h
  have hpre : KShrinks st (mark_safe { st with moves_made := insert cell st.moves_made } cell) :=
    kshrinks_trans (⟨le_refl _, fun _ _ => Finset.Subset.refl _⟩ :
        KShrinks st { st with moves_made := insert cell st.moves_made })
      (mark_safe_kshrinks _ _)
  refine ⟨?_, kshrinks_trans (kshrinks_trans (kshrinks_trans hpre
    (ak_after_marks_kshrinks _ _ _)) (ak_append_kshrinks _ _ _)) hloop⟩
  have hlen := hloop.1
  rw [ak_append_length, ak_after_marks_length, mark_safe_length] at hlen
  exact lt_of_lt_of_le (Nat.lt_succ_self _) hlen

/-- The concrete run used by the C10 witness: a fresh 3×3 agent told
`add_knowledge((1,1), 1)`. -/
def c10run : Option AIState := add_knowledge 6 (initialAI 3 3) ((1:ℤ),(1:ℤ)) 1

/-- C10 witness: `C10_thm` applied to the terminating concrete run
`c10run`. -/
theorem C10_witness :
    (initialAI 3 3).knowledge.length < (c10run.getD default).knowledge.length ∧
    KShrinks (initialAI 3 3) (c10run.getD default) :=
  C10_thm.2.2 6 (initialAI 3 3) ((1:ℤ),(1:ℤ)) 1 (c10run.getD default) (by decide)
